import Mathlib

/-!
Shallow embedding of the chess rules engine (vitvakatu/chess) for verifying
the natural-language specification.  Definitions are translated from the Rust
source files `src/pos.rs`, `src/piece.rs`, `src/moves.rs`, `src/fen.rs`,
`src/take_while.rs`, `src/board/castling.rs` and `src/board/state.rs`.
Rust `panic!`/`unwrap`/`expect` paths are modelled with `Option` (`none` = the
process aborts).  The image-resource `Handles` field of `BoardState` is
presentation-only state never read by the engine logic and is omitted.
-/

namespace Chess

/-- `PieceColor` from `src/piece.rs`. -/
inductive PieceColor where
  | White
  | Black
deriving DecidableEq, Repr

/-- `impl Not for PieceColor` from `src/piece.rs`. -/
def PieceColor.not : PieceColor → PieceColor
  | .Black => .White
  | .White => .Black

/-- `PieceType` from `src/piece.rs`. -/
inductive PieceType where
  | Pawn
  | King
  | Queen
  | Rook
  | Bishop
  | Knight
deriving DecidableEq, Repr

/-- `Piece` from `src/piece.rs`. -/
structure Piece where
  color : PieceColor
  kind : PieceType
deriving DecidableEq, Repr

/-- `File` from `src/pos.rs`. -/
inductive File where
  | A
  | B
  | C
  | D
  | E
  | F
  | G
  | H
deriving DecidableEq, Repr

/-- `File::as_u8` from `src/pos.rs`. -/
def File.asU8 : File → Nat
  | .A => 1
  | .B => 2
  | .C => 3
  | .D => 4
  | .E => 5
  | .F => 6
  | .G => 7
  | .H => 8

/-- `File::try_from_u8` from `src/pos.rs`. -/
def File.tryFromU8 : Nat → Option File
  | 1 => some .A
  | 2 => some .B
  | 3 => some .C
  | 4 => some .D
  | 5 => some .E
  | 6 => some .F
  | 7 => some .G
  | 8 => some .H
  | _ => none

/-- `Rank` from `src/pos.rs`: a `u8` validated to lie in `1..=8` by
`Rank::try_new`; the validation is carried in the subtype. -/
def Rank : Type := { n : Nat // 1 ≤ n ∧ n ≤ 8 }

instance : DecidableEq Rank :=
  inferInstanceAs (DecidableEq { n : Nat // 1 ≤ n ∧ n ≤ 8 })

instance : Repr Rank := ⟨fun r _ => repr r.1⟩

/-- `Rank::try_new` from `src/pos.rs`. -/
def Rank.tryNew (n : Nat) : Option Rank :=
  if h : 1 ≤ n ∧ n ≤ 8 then some ⟨n, h⟩ else none

/-- `Rank::get` from `src/pos.rs`. -/
def Rank.get (r : Rank) : Nat := r.1

/-- `Pos` from `src/pos.rs`. -/
structure Pos where
  file : File
  rank : Rank
deriving DecidableEq, Repr

/-- `PieceColor::king_rank` from `src/piece.rs`. -/
def PieceColor.kingRank : PieceColor → Rank
  | .White => ⟨1, by decide⟩
  | .Black => ⟨8, by decide⟩

/-- `PieceColor::king_home` from `src/piece.rs`. -/
def PieceColor.kingHome (c : PieceColor) : Pos := ⟨File.E, c.kingRank⟩

/-- `UnboundedPos` from `src/pos.rs`: signed coordinates used during ray
generation (the Rust `i8` never overflows for the step counts used, so `Int`
is a faithful model). -/
structure UnboundedPos where
  file : Int
  rank : Int
deriving DecidableEq, Repr

/-- `UnboundedPos::from_pos` from `src/pos.rs`. -/
def UnboundedPos.fromPos (pos : Pos) : UnboundedPos :=
  ⟨(pos.file.asU8 : Int), (pos.rank.get : Int)⟩

/-- `UnboundedPos::up` from `src/pos.rs`. -/
def UnboundedPos.up (u : UnboundedPos) (n : Nat) : UnboundedPos :=
  { u with rank := u.rank + n }

/-- `UnboundedPos::down` from `src/pos.rs`. -/
def UnboundedPos.down (u : UnboundedPos) (n : Nat) : UnboundedPos :=
  { u with rank := u.rank - n }

/-- `UnboundedPos::left` from `src/pos.rs`. -/
def UnboundedPos.left (u : UnboundedPos) (n : Nat) : UnboundedPos :=
  { u with file := u.file - n }

/-- `UnboundedPos::right` from `src/pos.rs`. -/
def UnboundedPos.right (u : UnboundedPos) (n : Nat) : UnboundedPos :=
  { u with file := u.file + n }

/-- `UnboundedPos::to_pos` from `src/pos.rs`. -/
def UnboundedPos.toPos (u : UnboundedPos) : Option Pos :=
  if u.file < 0 || u.rank < 0 then none
  else
    match File.tryFromU8 u.file.toNat, Rank.tryNew u.rank.toNat with
    | some f, some r => some ⟨f, r⟩
    | _, _ => none

/-- `VerticalDirection` from `src/pos.rs`. -/
inductive VerticalDirection where
  | Up
  | Down
deriving DecidableEq, Repr

/-- `HorizontalDirection` from `src/pos.rs`. -/
inductive HorizontalDirection where
  | Left
  | Right
deriving DecidableEq, Repr

/-- `DiagonalDirection` from `src/pos.rs`. -/
inductive DiagonalDirection where
  | UpLeft
  | UpRight
  | DownLeft
  | DownRight
deriving DecidableEq, Repr

/-- `UnboundedPos::vertical` from `src/pos.rs`: steps `1..=n` away from the
origin (the Rust closure increments `i` before use). -/
def UnboundedPos.vertical (pos : Pos) (n : Nat) (direction : VerticalDirection) :
    List UnboundedPos :=
  (List.range n).map fun i =>
    match direction with
    | .Up => (UnboundedPos.fromPos pos).up (i + 1)
    | .Down => (UnboundedPos.fromPos pos).down (i + 1)

/-- `UnboundedPos::horizontal` from `src/pos.rs`. -/
def UnboundedPos.horizontal (pos : Pos) (n : Nat) (direction : HorizontalDirection) :
    List UnboundedPos :=
  (List.range n).map fun i =>
    match direction with
    | .Left => (UnboundedPos.fromPos pos).left (i + 1)
    | .Right => (UnboundedPos.fromPos pos).right (i + 1)

/-- `UnboundedPos::diagonal` from `src/pos.rs`. -/
def UnboundedPos.diagonal (pos : Pos) (n : Nat) (direction : DiagonalDirection) :
    List UnboundedPos :=
  (List.range n).map fun i =>
    match direction with
    | .UpLeft => ((UnboundedPos.fromPos pos).up (i + 1)).left (i + 1)
    | .UpRight => ((UnboundedPos.fromPos pos).up (i + 1)).right (i + 1)
    | .DownLeft => ((UnboundedPos.fromPos pos).down (i + 1)).left (i + 1)
    | .DownRight => ((UnboundedPos.fromPos pos).down (i + 1)).right (i + 1)

/-- `CastlingSide` from `src/moves.rs`. -/
inductive CastlingSide where
  | Short
  | Long
deriving DecidableEq, Repr

/-- `PromotedTo` from `src/moves.rs`. -/
inductive PromotedTo where
  | Knight
  | Bishop
  | Rook
  | Queen
deriving DecidableEq, Repr

/-- `PromotedTo::to_piece` from `src/moves.rs`. -/
def PromotedTo.toPiece (p : PromotedTo) (color : PieceColor) : Piece :=
  match p with
  | .Knight => ⟨color, .Knight⟩
  | .Bishop => ⟨color, .Bishop⟩
  | .Rook => ⟨color, .Rook⟩
  | .Queen => ⟨color, .Queen⟩

/-- `internal::Move` from `src/moves.rs` (`from`/`to` are the first two
arguments of `Regular`; `from` is a Lean keyword so the arguments are
positional here). -/
inductive Move where
  | Regular (src dst : Pos) (promoted : Option PromotedTo)
  | Castling (side : CastlingSide)
deriving DecidableEq, Repr

/-- `Move::new` from `src/moves.rs`. -/
def Move.new (src dst : Pos) : Move := .Regular src dst none

/-- `Move::new_with_promoted` from `src/moves.rs`. -/
def Move.newWithPromoted (src dst : Pos) (promoted : Option PromotedTo) : Move :=
  .Regular src dst promoted

/-- `Move::castling` from `src/moves.rs`. -/
def Move.castling (side : CastlingSide) : Move := .Castling side

/-- `Move::to` from `src/moves.rs`. -/
def Move.to : Move → Option Pos
  | .Regular _ dst _ => some dst
  | .Castling _ => none

/-- `san::FromPos` from `src/moves.rs`. -/
inductive FromPos where
  | Square (pos : Pos)
  | File (file : File)
  | Rank (rank : Rank)
deriving DecidableEq, Repr

/-- `san::Move` from `src/moves.rs`. -/
inductive SanMove where
  | Piece (piece : PieceType) (isCapture : Bool) (fromPos : Option FromPos) (dst : Pos)
  | PawnPush (dst : Pos) (promoted : Option PromotedTo)
  | PawnCapture (fromFile : File) (fromRank : Option Rank) (dst : Pos)
      (promoted : Option PromotedTo)
  | Castling (side : CastlingSide)
deriving DecidableEq, Repr

/-- `Square` from `src/board.rs`: a cell is empty or holds a piece. -/
inductive Square where
  | Empty
  | Piece (piece : Piece)
deriving DecidableEq, Repr

/-- `CastlingState` from `src/board/castling.rs`. -/
structure CastlingState where
  kingMoved : Bool
  rookMovedShort : Bool
  rookMovedLong : Bool
deriving DecidableEq, Repr

/-- `CastlingState::new` from `src/board/castling.rs`. -/
def CastlingState.new : CastlingState := ⟨false, false, false⟩

/-- `CastlingState::is_short_possible` from `src/board/castling.rs`. -/
def CastlingState.isShortPossible (cs : CastlingState) : Bool :=
  !cs.kingMoved && !cs.rookMovedShort

/-- `CastlingState::is_long_possible` from `src/board/castling.rs`. -/
def CastlingState.isLongPossible (cs : CastlingState) : Bool :=
  !cs.kingMoved && !cs.rookMovedLong

/-- `GameResult` from `src/board/state.rs`. -/
inductive GameResult where
  | WinByCheckmate (checkmatedSide : PieceColor)
  | DrawByStalemate
deriving DecidableEq, Repr

/-- `BoardState` from `src/board/state.rs`.  `squares` pairs each cell with
its `IsHighlighted` flag exactly as the `Vec<(Square, IsHighlighted)>` does;
the presentation-only `handles` field is omitted. -/
structure BoardState where
  squares : List (Square × Bool)
  selectedPiece : Option (Piece × Pos)
  turn : PieceColor
  castlingWhite : CastlingState
  castlingBlack : CastlingState
  pliesSinceLastNonRepeatableMove : Nat
  moveNumber : Nat
  gameResult : Option GameResult
deriving DecidableEq, Repr

/-- `take_while_inclusive` from `src/take_while.rs`: like `takeWhile` but
also keeps the first failing element. -/
def takeWhileInclusive (p : α → Bool) : List α → List α
  | [] => []
  | x :: xs => if p x then x :: takeWhileInclusive p xs else [x]

/-- `BoardState::square_index_by_pos` from `src/board/state.rs`
(`(64 - rank*8) + file - 1`; the `Nat` subtractions never underflow on the
validated ranges, matching the `u8` arithmetic). -/
def squareIndexByPos (pos : Pos) : Nat :=
  (64 - pos.rank.get * 8) + pos.file.asU8 - 1

/-- `BoardState::pos_by_square_index` from `src/board/state.rs`; the
`assert!(index < 64)` and the `unwrap`s become `Option`. -/
def posBySquareIndex (index : Nat) : Option Pos :=
  if index < 64 then
    match File.tryFromU8 (index % 8 + 1), Rank.tryNew (8 - index / 8) with
    | some f, some r => some ⟨f, r⟩
    | _, _ => none
  else none

/-- `BoardState::square_by_pos` from `src/board/state.rs`.  The Rust
indexing would panic out of bounds; every `BoardState` built by the engine
has exactly 64 cells and `squareIndexByPos` is always `< 64`, so the
`getD` default is never consulted on such boards. -/
def squareByPos (b : BoardState) (pos : Pos) : Square :=
  (b.squares.getD (squareIndexByPos pos) (Square.Empty, false)).1

/-- Write a square at a list index, preserving the highlight flag: the
`*self.square_by_pos_mut(pos) = square` assignments from
`src/board/state.rs`. -/
def setSquareAt : List (Square × Bool) → Nat → Square → List (Square × Bool)
  | [], _, _ => []
  | x :: xs, 0, sq => (sq, x.2) :: xs
  | x :: xs, n + 1, sq => x :: setSquareAt xs n sq

/-- Functional form of assigning through `BoardState::square_by_pos_mut`. -/
def setSquare (b : BoardState) (pos : Pos) (sq : Square) : BoardState :=
  { b with squares := setSquareAt b.squares (squareIndexByPos pos) sq }

/-- `BoardState::is_square_occupied` from `src/board/state.rs`. -/
def isSquareOccupied (b : BoardState) (pos : Pos) : Bool :=
  match squareByPos b pos with
  | .Piece _ => true
  | .Empty => false

/-- `BoardState::is_square_occupied_by_color` from `src/board/state.rs`. -/
def isSquareOccupiedByColor (b : BoardState) (pos : Pos) (color : PieceColor) : Bool :=
  match squareByPos b pos with
  | .Piece p => p.color == color
  | .Empty => false

/-- `BoardState::pieces` from `src/board/state.rs`: every `(piece, pos)`
pair on the board in cell order. -/
def pieces (b : BoardState) : List (Piece × Pos) :=
  b.squares.enum.filterMap fun ip =>
    match ip.2.1 with
    | .Piece piece => (posBySquareIndex ip.1).map fun pos => (piece, pos)
    | .Empty => none

/-- `BoardState::castling` from `src/board/state.rs`. -/
def castlingOf (b : BoardState) (color : PieceColor) : CastlingState :=
  if color == .White then b.castlingWhite else b.castlingBlack

/-- Functional form of `BoardState::castling_mut` followed by a field
update, from `src/board/state.rs`. -/
def setCastling (b : BoardState) (color : PieceColor) (f : CastlingState → CastlingState) :
    BoardState :=
  if color == .White then { b with castlingWhite := f b.castlingWhite }
  else { b with castlingBlack := f b.castlingBlack }

/-- `BoardState::available_moves` from `src/board/state.rs`: pseudo-legal
move generation per piece kind. -/
def availableMoves (b : BoardState) (piece : Piece) (pos : Pos) : List Move :=
  match piece.kind with
  | .Pawn =>
    let isWhite := piece.color == .White
    let direction := if isWhite then VerticalDirection.Up else VerticalDirection.Down
    let isFirstMove := if isWhite then pos.rank.get == 2 else pos.rank.get == 7
    let forward :=
      ((UnboundedPos.vertical pos (if isFirstMove then 2 else 1) direction).filterMap
          UnboundedPos.toPos).takeWhile fun p => !isSquareOccupied b p
    let diagonalDirections :=
      if isWhite then [DiagonalDirection.UpLeft, DiagonalDirection.UpRight]
      else [DiagonalDirection.DownLeft, DiagonalDirection.DownRight]
    let captures := diagonalDirections.flatMap fun dir =>
      ((UnboundedPos.diagonal pos 1 dir).filterMap UnboundedPos.toPos).filter fun p =>
        isSquareOccupiedByColor b p piece.color.not
    (forward ++ captures).flatMap fun dst =>
      if dst.rank == piece.color.not.kingRank then
        [Move.newWithPromoted pos dst (some .Queen),
         Move.newWithPromoted pos dst (some .Bishop),
         Move.newWithPromoted pos dst (some .Rook),
         Move.newWithPromoted pos dst (some .Knight)]
      else [Move.new pos dst]
  | .King =>
    let castling := castlingOf b piece.color
    let shortCastling := if castling.isShortPossible then [Move.castling .Short] else []
    let longCastling := if castling.isLongPossible then [Move.castling .Long] else []
    let steps :=
      UnboundedPos.vertical pos 1 .Up ++ UnboundedPos.vertical pos 1 .Down ++
        UnboundedPos.horizontal pos 1 .Left ++ UnboundedPos.horizontal pos 1 .Right ++
        UnboundedPos.diagonal pos 1 .UpLeft ++ UnboundedPos.diagonal pos 1 .UpRight ++
        UnboundedPos.diagonal pos 1 .DownLeft ++ UnboundedPos.diagonal pos 1 .DownRight
    (((steps.filterMap UnboundedPos.toPos).filter fun p =>
        !isSquareOccupiedByColor b p piece.color).map (Move.new pos)) ++
      shortCastling ++ longCastling
  | .Bishop =>
    ([DiagonalDirection.UpLeft, .UpRight, .DownLeft, .DownRight].flatMap fun dir =>
      (takeWhileInclusive (fun p => !isSquareOccupied b p)
          ((UnboundedPos.diagonal pos 8 dir).filterMap UnboundedPos.toPos)).filter fun p =>
        !isSquareOccupiedByColor b p piece.color).map (Move.new pos)
  | .Knight =>
    (([(UnboundedPos.fromPos pos).up 2 |>.left 1,
       (UnboundedPos.fromPos pos).up 2 |>.right 1,
       (UnboundedPos.fromPos pos).down 2 |>.left 1,
       (UnboundedPos.fromPos pos).down 2 |>.right 1,
       (UnboundedPos.fromPos pos).up 1 |>.left 2,
       (UnboundedPos.fromPos pos).up 1 |>.right 2,
       (UnboundedPos.fromPos pos).down 1 |>.left 2,
       (UnboundedPos.fromPos pos).down 1 |>.right 2].filterMap
        UnboundedPos.toPos).filter fun p =>
      !isSquareOccupiedByColor b p piece.color).map (Move.new pos)
  | .Rook =>
    (([VerticalDirection.Up, .Down].flatMap fun dir =>
        (takeWhileInclusive (fun p => !isSquareOccupied b p)
            ((UnboundedPos.vertical pos 8 dir).filterMap UnboundedPos.toPos)).filter fun p =>
          !isSquareOccupiedByColor b p piece.color) ++
      ([HorizontalDirection.Left, .Right].flatMap fun dir =>
        (takeWhileInclusive (fun p => !isSquareOccupied b p)
            ((UnboundedPos.horizontal pos 8 dir).filterMap UnboundedPos.toPos)).filter fun p =>
          !isSquareOccupiedByColor b p piece.color)).map (Move.new pos)
  | .Queen =>
    (([VerticalDirection.Up, .Down].flatMap fun dir =>
        (takeWhileInclusive (fun p => !isSquareOccupied b p)
            ((UnboundedPos.vertical pos 8 dir).filterMap UnboundedPos.toPos)).filter fun p =>
          !isSquareOccupiedByColor b p piece.color) ++
      ([HorizontalDirection.Left, .Right].flatMap fun dir =>
        (takeWhileInclusive (fun p => !isSquareOccupied b p)
            ((UnboundedPos.horizontal pos 8 dir).filterMap UnboundedPos.toPos)).filter fun p =>
          !isSquareOccupiedByColor b p piece.color) ++
      ([DiagonalDirection.UpLeft, .UpRight, .DownLeft, .DownRight].flatMap fun dir =>
        (takeWhileInclusive (fun p => !isSquareOccupied b p)
            ((UnboundedPos.diagonal pos 8 dir).filterMap UnboundedPos.toPos)).filter fun p =>
          !isSquareOccupiedByColor b p piece.color)).map (Move.new pos)

/-- `BoardState::is_attacked` from `src/board/state.rs`: count the
pseudo-legal moves of `by` whose destination is `pos`. -/
def isAttacked (b : BoardState) (pos : Pos) (attacker : PieceColor) : Bool :=
  decide (0 <
    ((((pieces b).filter fun qp => qp.1.color == attacker).flatMap fun qp =>
        availableMoves b qp.1 qp.2).filter fun mv => mv.to == some pos).length)

/-- `BoardState::is_king_attacked` from `src/board/state.rs`; the
`.next().unwrap()` on the king search becomes `Option`. -/
def isKingAttacked (b : BoardState) (kingColor : PieceColor) : Option Bool :=
  (((pieces b).filter fun qp =>
      qp.1.color == kingColor && qp.1.kind == PieceType.King).head?).map fun qp =>
    isAttacked b qp.2 kingColor.not

/-- `BoardState::make_move_inner` from `src/board/state.rs`. -/
def makeMoveInner (b : BoardState) (src dst : Pos) : BoardState :=
  let piece := squareByPos b src
  setSquare (setSquare b src .Empty) dst piece

/-- `BoardState::make_move_promote` from `src/board/state.rs`. -/
def makeMovePromote (b : BoardState) (src dst : Pos) (promote : PromotedTo) : BoardState :=
  setSquare (setSquare b src .Empty) dst (.Piece (promote.toPiece b.turn))

/-- The `match mv` body of `BoardState::make_move` from
`src/board/state.rs`, before the final `switch_turn`/move-number step; the
`panic!("Invalid move (no piece)")` on an empty origin becomes `none`.
Note that, as in the source, `is_capture` inspects the destination square
AFTER the piece has been relocated. -/
def makeMoveCore (b : BoardState) (mv : Move) : Option BoardState :=
  match mv with
    | .Regular src dst promoted =>
      match squareByPos b src with
      | .Empty => none
      | .Piece piece =>
        let b1 := if piece.kind == .King then
            setCastling b piece.color (fun cs => { cs with kingMoved := true }) else b
        let b2 := if piece.kind == .Rook && src.file == .A then
            setCastling b1 piece.color (fun cs => { cs with rookMovedLong := true }) else b1
        let b3 := if piece.kind == .Rook && src.file == .H then
            setCastling b2 piece.color (fun cs => { cs with rookMovedShort := true }) else b2
        let b4 := match promoted with
          | some promote => makeMovePromote b3 src dst promote
          | none => makeMoveInner b3 src dst
        let isCapture := isSquareOccupied b4 dst
        let isPawnMove := piece.kind == .Pawn
        some (if isCapture || isPawnMove then
            { b4 with pliesSinceLastNonRepeatableMove := 0 }
          else
            { b4 with pliesSinceLastNonRepeatableMove :=
                b4.pliesSinceLastNonRepeatableMove + 1 })
    | .Castling side =>
      let b1 := { b with pliesSinceLastNonRepeatableMove :=
          b.pliesSinceLastNonRepeatableMove + 1 }
      let b2 := setCastling b1 b1.turn (fun cs => { cs with kingMoved := true })
      let rank := if b2.turn == .White then PieceColor.White.kingRank
        else PieceColor.Black.kingRank
      let kingHome : Pos := ⟨.E, rank⟩
      match side with
      | .Short =>
        let b3 := setCastling b2 b2.turn (fun cs => { cs with rookMovedShort := true })
        some (makeMoveInner (makeMoveInner b3 kingHome ⟨.G, rank⟩) ⟨.H, rank⟩ ⟨.F, rank⟩)
      | .Long =>
        let b3 := setCastling b2 b2.turn (fun cs => { cs with rookMovedLong := true })
        some (makeMoveInner (makeMoveInner b3 kingHome ⟨.C, rank⟩) ⟨.A, rank⟩ ⟨.D, rank⟩)
/-- `BoardState::make_move` from `src/board/state.rs`: the `match` body
(`makeMoveCore`) followed by `switch_turn` and the move-number increment
when the new side to move is White. -/
def makeMove (b : BoardState) (mv : Move) : Option BoardState :=
  (makeMoveCore b mv).map fun a =>
    let a1 := { a with turn := a.turn.not }
    if a1.turn == .White then { a1 with moveNumber := a1.moveNumber + 1 } else a1

/-- `BoardState::is_check` from `src/board/state.rs`: simulate the move on a
copy and ask whether the mover's king is attacked. -/
def isCheck (b : BoardState) (mv : Move) : Option Bool := do
  let next ← makeMove b mv
  isKingAttacked next b.turn

/-- `BoardState::is_legal_move` from `src/board/state.rs`. -/
def isLegalMove (b : BoardState) (piece : Piece) (mv : Move) : Option Bool :=
  match mv with
  | .Regular _ _ _ => (isCheck b mv).map fun c => !c
  | .Castling side =>
    let rank := piece.color.kingRank
    let kingPath : List Pos :=
      match side with
      | .Short => [⟨.F, rank⟩, ⟨.G, rank⟩]
      | .Long => [⟨.D, rank⟩, ⟨.C, rank⟩]
    let rookPath : List Pos :=
      match side with
      | .Short => [⟨.G, rank⟩, ⟨.F, rank⟩]
      | .Long => [⟨.B, rank⟩, ⟨.C, rank⟩, ⟨.D, rank⟩]
    let isKingPathBlocked := kingPath.any fun pos => isSquareOccupied b pos
    let isRookPathBlocked := rookPath.any fun pos => isSquareOccupied b pos
    let isKingPathAttacked := kingPath.any fun pos => isAttacked b pos piece.color.not
    some (!isKingPathAttacked && !isKingPathBlocked && !isRookPathBlocked)

/-- `BoardState::legal_moves` from `src/board/state.rs`: pseudo-legal moves
filtered by `is_legal_move` (`none` when some legality check would panic). -/
def legalMoves (b : BoardState) (piece : Piece) (pos : Pos) : Option (List Move) := do
  let avail := availableMoves b piece pos
  let flags ← avail.mapM fun mv => isLegalMove b piece mv
  pure (((avail.zip flags).filter fun p => p.2).map fun p => p.1)

/-- `BoardState::is_checkmate` from `src/board/state.rs`. -/
def isCheckmate (b : BoardState) (checkmatedSide : PieceColor) : Option Bool := do
  let moveLists ← ((pieces b).filter fun qp => qp.1.color == checkmatedSide).mapM
    fun qp => legalMoves b qp.1 qp.2
  let kingAttacked ← isKingAttacked b checkmatedSide
  pure (kingAttacked && moveLists.flatten.length == 0)

/-- `BoardState::to_san_move` from `src/board/state.rs`; the
`panic!` on an empty origin becomes `none`, as do panics from the
`legal_moves` calls on competing pieces. -/
def toSanMove (b : BoardState) (mv : Move) : Option SanMove :=
  match mv with
  | .Castling side => some (.Castling side)
  | .Regular src dst promoted =>
    match squareByPos b src with
    | .Empty => none
    | .Piece piece =>
      match piece.kind with
      | .Pawn =>
        let isCapture := isSquareOccupied b dst
        if isCapture then
          let pawnsOnThisFile :=
            ((pieces b).filter fun qp =>
              qp.1.kind == PieceType.Pawn && qp.1.color == piece.color &&
                qp.2.file == src.file).length
          let fromRank := if pawnsOnThisFile > 1 then some src.rank else none
          some (.PawnCapture src.file fromRank dst promoted)
        else some (.PawnPush dst promoted)
      | _ =>
        let isCapture := isSquareOccupied b dst
        let countSamePieces :=
          ((pieces b).filter fun qp =>
            qp.1.kind == piece.kind && qp.1.color == piece.color).length
        if countSamePieces == 1 then some (.Piece piece.kind isCapture none dst)
        else do
          let otherPieces := (pieces b).filter fun qp =>
            qp.2 != src && qp.1.kind == piece.kind && qp.1.color == piece.color
          let matchingLists ← otherPieces.mapM fun qp =>
            (legalMoves b qp.1 qp.2).map fun ms =>
              (ms.filter fun m => m.to == some dst).map fun _ => qp.2
          let matchingMoves := matchingLists.flatten
          let fromTag :=
            if matchingMoves.isEmpty then none
            else if matchingMoves.any fun p => p.file != src.file then
              some (FromPos.File src.file)
            else if matchingMoves.all fun p => p.file == src.file then
              some (FromPos.Rank src.rank)
            else some (FromPos.Square src)
          some (.Piece piece.kind isCapture fromTag dst)

/-- The lazy candidate scan shared by the search closures of
`BoardState::from_san_move` in `src/board/state.rs`: walk candidates in
board order, compute each candidate's legal moves (`none` = that
computation panics), and return the first candidate with a legal move to
`dst` (`some none` = iterator exhausted, which `.expect` turns into a
panic). -/
def findFirstReaching (b : BoardState) (dst : Pos) :
    List (Piece × Pos) → Option (Option Pos)
  | [] => some none
  | qp :: rest =>
    match legalMoves b qp.1 qp.2 with
    | none => none
    | some ms =>
      if ms.any fun m => m.to == some dst then some (some qp.2)
      else findFirstReaching b dst rest

/-- `BoardState::from_san_move` from `src/board/state.rs`; both the
`expect`-on-no-candidate aborts and panics inside `legal_moves` become
`none`. -/
def fromSanMove (b : BoardState) (mv : SanMove) : Option Move :=
  match mv with
  | .Castling side => some (.Castling side)
  | .Piece kind _ fromTag dst =>
    let base := (pieces b).filter fun qp => qp.1.kind == kind && qp.1.color == b.turn
    match fromTag with
    | some (.Square pos) => some (Move.new pos dst)
    | some (.File f) => do
      let found ← findFirstReaching b dst (base.filter fun qp => qp.2.file == f)
      let src ← found
      pure (Move.new src dst)
    | some (.Rank r) => do
      let found ← findFirstReaching b dst (base.filter fun qp => qp.2.rank == r)
      let src ← found
      pure (Move.new src dst)
    | none => do
      let found ← findFirstReaching b dst (base.filter fun _ => true)
      let src ← found
      pure (Move.new src dst)
  | .PawnPush dst promoted => do
    let found ← findFirstReaching b dst ((pieces b).filter fun qp =>
      qp.1.kind == PieceType.Pawn && qp.1.color == b.turn)
    let src ← found
    pure (Move.newWithPromoted src dst promoted)
  | .PawnCapture fromFile fromRank dst promoted =>
    match fromRank with
    | some r => some (Move.newWithPromoted ⟨fromFile, r⟩ dst promoted)
    | none => do
      let found ← findFirstReaching b dst ((pieces b).filter fun qp =>
        qp.1.kind == PieceType.Pawn && qp.1.color == b.turn && qp.2.file == fromFile)
      let src ← found
      pure (Move.newWithPromoted src dst promoted)

/-- The piece-letter match inside `parse_fen` from `src/fen.rs` (the char is
lowercased first, as in the source). -/
def pieceOfChar (c : Char) : Option PieceType :=
  let lc := c.toLower
  if lc = 'p' then some .Pawn
  else if lc = 'k' then some .King
  else if lc = 'q' then some .Queen
  else if lc = 'r' then some .Rook
  else if lc = 'b' then some .Bishop
  else if lc = 'n' then some .Knight
  else none

/-- `parse_fen` from `src/fen.rs`.  The Rust code splits on `'/'` and then
iterates the characters of every rank, appending to one result vector, which
is the same as iterating all characters and skipping `'/'`.  A digit `d`
(`is_digit(10)`, so any of 0–9) appends `d` empty cells; a recognized piece
letter appends one piece; anything else panics (`none` here). -/
def parseFen : List Char → Option (List Square)
  | [] => some []
  | c :: rest =>
    if c = '/' then parseFen rest
    else if c.isDigit then
      (parseFen rest).map fun tail =>
        List.replicate (c.toNat - 48) Square.Empty ++ tail
    else
      let color := if c.isLower then PieceColor.Black else PieceColor.White
      match pieceOfChar c with
      | some kind => (parseFen rest).map fun tail => Square.Piece ⟨color, kind⟩ :: tail
      | none => none

/-- `STARTING_POSITION` from `src/fen.rs`. -/
def STARTING_POSITION : List Char :=
  "rnbqkbnr/pppppppp/8/8/8/8/PPPPPPPP/RNBQKBNR".toList

/-- `FOOLS_MATE` from `src/fen.rs`. -/
def FOOLS_MATE : List Char :=
  "rnbqkbnr/pppppppp/8/7Q/2B5/8/PPPP1PPP/RNB1K1NR".toList

/-- `BoardState::new` from `src/board/state.rs`, generalized to an arbitrary
placement string and side to move (the spec scenarios say "loading placement
P with C to move"; `BoardState::new` itself is the starting placement with
White to move). -/
def boardFromPlacement (placement : List Char) (turn : PieceColor) : BoardState :=
  { squares := ((parseFen placement).getD []).map fun s => (s, false)
    selectedPiece := none
    turn := turn
    castlingWhite := CastlingState.new
    castlingBlack := CastlingState.new
    pliesSinceLastNonRepeatableMove := 0
    moveNumber := 1
    gameResult := none }

/-- The board built by `BoardState::new`. -/
def startingBoard : BoardState := boardFromPlacement STARTING_POSITION .White

/-- The fool's-mate fixture board of spec Scenario A: `FOOLS_MATE` with
Black to move. -/
def foolsBoard : BoardState := boardFromPlacement FOOLS_MATE .Black

/-- A board with three White rooks (a1, a3, h2), kings e1/e8, White to
move; used to exercise SAN disambiguation with three same-kind pieces. -/
def rookBoard : BoardState :=
  boardFromPlacement "4k3/8/8/8/8/R7/7R/R3K3".toList .White

/-- A board where White's short-castling paths are free and unattacked but
the king's own square e1 is attacked by the rook on e8. -/
def castleCheckBoard : BoardState :=
  boardFromPlacement "k3r3/8/8/8/8/8/8/4K2R".toList .White

/-- A board whose only piece is a White pawn on g7 (spec Scenario D). -/
def promoBoard : BoardState :=
  boardFromPlacement "8/6P1/8/8/8/8/8/8".toList .White

/-- Concrete square a1. -/
def pA1 : Pos := ⟨.A, ⟨1, by decide⟩⟩

/-- Concrete square a2. -/
def pA2 : Pos := ⟨.A, ⟨2, by decide⟩⟩

/-- Concrete square a3. -/
def pA3 : Pos := ⟨.A, ⟨3, by decide⟩⟩

/-- Concrete square b1. -/
def pB1 : Pos := ⟨.B, ⟨1, by decide⟩⟩

/-- Concrete square e1. -/
def pE1 : Pos := ⟨.E, ⟨1, by decide⟩⟩

/-- Concrete square f3. -/
def pF3 : Pos := ⟨.F, ⟨3, by decide⟩⟩

/-- Concrete square g1. -/
def pG1 : Pos := ⟨.G, ⟨1, by decide⟩⟩

/-- Concrete square g7. -/
def pG7 : Pos := ⟨.G, ⟨7, by decide⟩⟩

/-- Concrete square g8. -/
def pG8 : Pos := ⟨.G, ⟨8, by decide⟩⟩

/-- The board after applying the knight move g1-f3 to the starting board
(a concrete successful `makeMove`, used to instantiate theorems with
hypotheses). -/
def boardAfterNf3 : BoardState :=
  (makeMove startingBoard (Move.new pG1 pF3)).getD startingBoard

/-- Spec-side definition, following the words of claim C7: the forward step
of length `k` of a pawn of color `c` standing on `pos` (up for White, down
for Black), as an on-board square if any. -/
def pawnStepSpec (c : PieceColor) (pos : Pos) (k : Nat) : Option Pos :=
  match c with
  | .White => ((UnboundedPos.fromPos pos).up k).toPos
  | .Black => ((UnboundedPos.fromPos pos).down k).toPos

/-- Spec-side definition, following the words of claim C7: the two
one-step diagonal-forward neighbours of a pawn of color `c` on `pos`. -/
def pawnDiagSpec (c : PieceColor) (pos : Pos) : List (Option Pos) :=
  match c with
  | .White =>
    [(((UnboundedPos.fromPos pos).up 1).left 1).toPos,
     (((UnboundedPos.fromPos pos).up 1).right 1).toPos]
  | .Black =>
    [(((UnboundedPos.fromPos pos).down 1).left 1).toPos,
     (((UnboundedPos.fromPos pos).down 1).right 1).toPos]

/-- Spec-side definition, following the words of claim C7: whether `pos` is
on the home rank of a pawn of color `c`. -/
def pawnHomeRankSpec (c : PieceColor) (pos : Pos) : Prop :=
  match c with
  | .White => pos.rank.get = 2
  | .Black => pos.rank.get = 7

/-- Spec-side definition, following the words of claim C7: the squares a
pawn of color `c` on `pos` may move to — the one-step forward square if
unoccupied; the two-step forward square only from the home rank with the
first step unoccupied (and itself unoccupied); a diagonal-forward square
only if occupied by the opposing color. -/
def pawnDestSpec (b : BoardState) (c : PieceColor) (pos dst : Pos) : Prop :=
  (pawnStepSpec c pos 1 = some dst ∧ isSquareOccupied b dst = false)
  ∨ (pawnHomeRankSpec c pos ∧
      (∃ mid, pawnStepSpec c pos 1 = some mid ∧ isSquareOccupied b mid = false) ∧
      pawnStepSpec c pos 2 = some dst ∧ isSquareOccupied b dst = false)
  ∨ (some dst ∈ pawnDiagSpec c pos ∧ isSquareOccupiedByColor b dst c.not = true)

/-- Spec-side definition, following the words of claim C7: the moves of a
pawn of color `c` on `pos` — one move per reachable destination, except
that a destination on the opponent's back rank is replaced by the four
promotion moves (Queen, Rook, Bishop, Knight). -/
def pawnMoveSpec (b : BoardState) (c : PieceColor) (pos : Pos) (m : Move) : Prop :=
  ∃ dst, pawnDestSpec b c pos dst ∧
    (if dst.rank = c.not.kingRank then
      m = Move.newWithPromoted pos dst (some .Queen) ∨
      m = Move.newWithPromoted pos dst (some .Rook) ∨
      m = Move.newWithPromoted pos dst (some .Bishop) ∨
      m = Move.newWithPromoted pos dst (some .Knight)
    else m = Move.new pos dst)

/-- Spec-side definition, following the words of claim C4: the
origin-candidate set of a SAN piece-move — pieces of the stated kind and
side to move, restricted by any supplied file/rank constraint, whose legal
moves reach the stated destination, in board order. -/
def sanCandidates (b : BoardState) (kind : PieceType) (fromTag : Option FromPos)
    (dst : Pos) : List (Piece × Pos) :=
  ((((pieces b).filter fun qp => qp.1.kind == kind && qp.1.color == b.turn).filter
      fun qp =>
        match fromTag with
        | some (FromPos.File f) => qp.2.file == f
        | some (FromPos.Rank r) => qp.2.rank == r
        | _ => true).filter
    fun qp => ((legalMoves b qp.1 qp.2).getD []).any fun m => m.to == some dst)

theorem setCastling_turn (b : BoardState) (c : PieceColor) (f : CastlingState → CastlingState) :
    (setCastling b c f).turn = b.turn := by
  unfold setCastling; split <;> rfl

theorem setCastling_moveNumber (b : BoardState) (c : PieceColor)
    (f : CastlingState → CastlingState) :
    (setCastling b c f).moveNumber = b.moveNumber := by
  unfold setCastling; split <;> rfl

theorem makeMoveInner_turn (b : BoardState) (src dst : Pos) :
    (makeMoveInner b src dst).turn = b.turn := rfl

theorem makeMoveInner_moveNumber (b : BoardState) (src dst : Pos) :
    (makeMoveInner b src dst).moveNumber = b.moveNumber := rfl

theorem makeMovePromote_turn (b : BoardState) (src dst : Pos) (pr : PromotedTo) :
    (makeMovePromote b src dst pr).turn = b.turn := rfl

theorem makeMovePromote_moveNumber (b : BoardState) (src dst : Pos) (pr : PromotedTo) :
    (makeMovePromote b src dst pr).moveNumber = b.moveNumber := rfl

/-- The `match` body of `make_move` never touches the side to move or the
move number: those are updated only afterwards. -/
theorem makeMoveCore_preserves (b : BoardState) (mv : Move) (a : BoardState)
    (h : makeMoveCore b mv = some a) : a.turn = b.turn ∧ a.moveNumber = b.moveNumber := by
  cases mv with
  | Regular src dst promoted =>
    simp only [makeMoveCore] at h
    split at h
    · exact Option.noConfusion h
    · simp only [Option.some.injEq] at h
      subst h
      cases promoted <;>
        constructor <;>
          simp [apply_ite BoardState.turn, apply_ite BoardState.moveNumber,
            setCastling_turn, setCastling_moveNumber, makeMoveInner_turn,
            makeMoveInner_moveNumber, makeMovePromote_turn, makeMovePromote_moveNumber]
  | Castling side =>
    cases side <;>
      · simp only [makeMoveCore, Option.some.injEq] at h
        subst h
        constructor <;>
          simp [makeMoveInner_turn, makeMoveInner_moveNumber, setCastling_turn,
            setCastling_moveNumber]

/-- C8: applying any move (Regular or Castle) flips the side to move exactly
once, and the move number increments exactly when the new side to move is
White. -/
theorem c8_turn_alternation (b : BoardState) (mv : Move) (s' : BoardState)
    (h : makeMove b mv = some s') :
    s'.turn = b.turn.not ∧
      s'.moveNumber =
        (if b.turn.not = .White then b.moveNumber + 1 else b.moveNumber) := by
  unfold makeMove at h
  cases hc : makeMoveCore b mv with
  | none => rw [hc] at h; exact absurd h (by simp)
  | some a =>
    rw [hc] at h
    obtain ⟨hturn, hnum⟩ := makeMoveCore_preserves b mv a hc
    simp only [Option.map_some', Option.some.injEq] at h
    subst h
    constructor
    · simp [apply_ite BoardState.turn, hturn]
    · by_cases hw : b.turn.not = .White
      · simp [apply_ite BoardState.moveNumber, hturn, hnum, hw, beq_iff_eq]
      · simp [apply_ite BoardState.moveNumber, hturn, hnum, hw, beq_iff_eq]

/-- Witness for C8: the knight move g1-f3 on the starting board flips the
turn to Black and leaves the move number at 1. -/
theorem c8_turn_alternation_witness :
    boardAfterNf3.turn = startingBoard.turn.not ∧
      boardAfterNf3.moveNumber =
        (if startingBoard.turn.not = .White then startingBoard.moveNumber + 1
          else startingBoard.moveNumber) :=
  c8_turn_alternation startingBoard (Move.new pG1 pF3) boardAfterNf3 (by rfl)

/-- C2 (code bug): `make_move` computes `is_capture` by inspecting the
destination square AFTER relocating the piece, so the destination is always
occupied and the repeatable-move-free ply counter is reset to 0 by every
Regular move.  Concretely, the non-capturing knight move g1-f3 from the
starting board (counter 0, destination f3 empty beforehand, mover not a
pawn) leaves the counter at 0 where the claim requires 0 + 1 = 1. -/
theorem c2_plies_reset_eval :
    startingBoard.pliesSinceLastNonRepeatableMove = 0 ∧
      squareByPos startingBoard pF3 = Square.Empty ∧
      squareByPos startingBoard pG1 = Square.Piece ⟨.White, .Knight⟩ ∧
      (makeMove startingBoard (Move.new pG1 pF3)).map
          (fun s => s.pliesSinceLastNonRepeatableMove) = some 0 := by
  refine ⟨rfl, rfl, rfl, rfl⟩

/-- C3 (code bug): on `castleCheckBoard` the White king on e1 is attacked
by the Black rook on e8, yet `is_legal_move` judges the Short castle legal,
because the attacked-square check covers only the transit squares f1, g1
and never the king's origin square e1. -/
theorem c3_castle_out_of_check_eval :
    isLegalMove castleCheckBoard ⟨.White, .King⟩ (.Castling .Short) = some true ∧
      isAttacked castleCheckBoard pE1 .Black = true := by
  refine ⟨rfl, rfl⟩

/-- Counterexample to C6: on the fool's-mate fixture board with Black to
move, `is_checkmate(Black)` is NOT true. -/
theorem c6_foolsmate_counterexample :
    ¬ isCheckmate foolsBoard .Black = some true := by decide

/-- C6 amended: loading the fool's-mate placement with Black to move yields
`is_checkmate(Black) = false`; the Black king is not even attacked in that
position. -/
theorem c6_foolsmate_not_mate :
    isCheckmate foolsBoard .Black = some false ∧
      isKingAttacked foolsBoard .Black = some false := by
  refine ⟨rfl, rfl⟩

/-- C10: for every valid square coordinate, `square_index_by_pos` is below
64 and `pos_by_square_index` inverts it, so the 64 coordinates address
distinct cells of the layout. -/
theorem c10_square_index_roundtrip (p : Pos) :
    squareIndexByPos p < 64 ∧ posBySquareIndex (squareIndexByPos p) = some p := by
  obtain ⟨f, n, hn1, hn8⟩ := p
  have hf1 : 1 ≤ f.asU8 ∧ f.asU8 ≤ 8 := by cases f <;> decide
  have hidx : squareIndexByPos ⟨f, ⟨n, hn1, hn8⟩⟩ = (64 - n * 8) + f.asU8 - 1 := rfl
  constructor
  · rw [hidx]; omega
  · rw [hidx]
    unfold posBySquareIndex
    rw [if_pos (by omega)]
    have hmod : ((64 - n * 8) + f.asU8 - 1) % 8 + 1 = f.asU8 := by omega
    have hdiv : 8 - ((64 - n * 8) + f.asU8 - 1) / 8 = n := by omega
    rw [hmod, hdiv]
    have htf : File.tryFromU8 f.asU8 = some f := by cases f <;> rfl
    rw [htf]
    unfold Rank.tryNew
    rw [dif_pos ⟨hn1, hn8⟩]

/-- C9: a square is attacked by a color iff some piece of that color has it
as the destination of one of its pseudo-legal (`available_moves`) moves;
castling pseudo-moves, having no destination square, never attack. -/
theorem c9_is_attacked_iff (b : BoardState) (pos : Pos) (c : PieceColor) :
    (isAttacked b pos c = true ↔
      ∃ piece q, (piece, q) ∈ pieces b ∧ piece.color = c ∧
        ∃ m ∈ availableMoves b piece q, Move.to m = some pos) ∧
    ∀ side : CastlingSide, Move.to (Move.castling side) = none := by
  constructor
  · unfold isAttacked
    rw [decide_eq_true_iff, List.length_pos_iff_exists_mem]
    constructor
    · rintro ⟨mv, hmv⟩
      rw [List.mem_filter] at hmv
      obtain ⟨hmem, hto⟩ := hmv
      rw [List.mem_flatMap] at hmem
      obtain ⟨qp, hqp, hmv2⟩ := hmem
      rw [List.mem_filter] at hqp
      obtain ⟨hqmem, hqcol⟩ := hqp
      exact ⟨qp.1, qp.2, hqmem, by simpa using hqcol, mv, hmv2, by simpa using hto⟩
    · rintro ⟨piece, q, hmem, hcol, m, hm, hto⟩
      refine ⟨m, List.mem_filter.mpr
        ⟨List.mem_flatMap.mpr ⟨(piece, q), List.mem_filter.mpr ⟨hmem, ?_⟩, hm⟩, ?_⟩⟩
      · simpa using hcol
      · simpa using hto
  · intro side; rfl

theorem pieceOfChar_eq_none_iff (c : Char) :
    pieceOfChar c = none ↔ c.toLower ∉ ['p', 'k', 'q', 'r', 'b', 'n'] := by
  unfold pieceOfChar
  simp only []
  split_ifs with h1 h2 h3 h4 h5 h6 <;> simp_all

/-- Counterexample to C5: the placement-string parser does NOT fail on the
digit character '0'; it parses it as a run of zero empty cells. -/
theorem c5_digit_zero_counterexample : parseFen ['0'] = some [] := rfl

/-- C5 amended: the parser fails exactly on characters (other than the rank
separator '/') that are neither a digit 0-9 nor one of the letters
p,k,q,r,b,n in either case; in particular the digits '0' and '9' are
accepted, as runs of zero and nine empty cells. -/
theorem c5_parse_fen_characterization :
    (∀ cs : List Char, (parseFen cs).isSome = true ↔
      ∀ c ∈ cs, c = '/' ∨ c.isDigit = true ∨ c.toLower ∈ ['p', 'k', 'q', 'r', 'b', 'n']) ∧
    parseFen ['0'] = some [] ∧
    parseFen ['9'] = some (List.replicate 9 Square.Empty) := by
  refine ⟨?_, rfl, rfl⟩
  intro cs
  induction cs with
  | nil => simp [parseFen]
  | cons c rest ih =>
    rw [List.forall_mem_cons]
    by_cases h1 : c = '/'
    · simp [parseFen, h1, ih]
    · by_cases h2 : c.isDigit
      · simp [parseFen, h1, h2, ih]
      · cases h3 : pieceOfChar c with
        | none =>
          have hnm := (pieceOfChar_eq_none_iff c).mp h3
          simp [parseFen, h1, h2, h3, hnm]
        | some k =>
          have hmem : c.toLower ∈ ['p', 'k', 'q', 'r', 'b', 'n'] := by
            by_contra hx
            rw [← pieceOfChar_eq_none_iff] at hx
            simp [h3] at hx
          simp [parseFen, h1, h2, h3, ih, hmem]

/-- The candidate scan of `from_san_move` returns the first candidate, in
board order, whose legal moves reach the destination — provided no
candidate's legality computation panics. -/
theorem findFirstReaching_spec (b : BoardState) (dst : Pos) (l : List (Piece × Pos))
    (hwf : ∀ qp ∈ l, legalMoves b qp.1 qp.2 ≠ none) :
    findFirstReaching b dst l =
      some (((l.filter fun qp => ((legalMoves b qp.1 qp.2).getD []).any
        fun m => m.to == some dst).head?).map fun qp => qp.2) := by
  induction l with
  | nil => rfl
  | cons qp rest ih =>
    cases hms : legalMoves b qp.1 qp.2 with
    | none => exact absurd hms (hwf qp (List.mem_cons_self _ _))
    | some ms =>
      have hrest : ∀ x ∈ rest, legalMoves b x.1 x.2 ≠ none :=
        fun x hx => hwf x (List.mem_cons_of_mem _ hx)
      by_cases hany : (ms.any fun m => m.to == some dst) = true
      · simp [findFirstReaching, hms, hany, List.filter_cons]
      · simp [findFirstReaching, hms, hany, List.filter_cons, ih hrest]

/-- Counterexample to C4: on `rookBoard`, the SAN move "Ra2" (rook to a2,
origin restricted to file a) has TWO surviving origin candidates (the rooks
on a3 and a1), yet `from_san_move` does not fail. -/
theorem c4_ambiguity_counterexample :
    (sanCandidates rookBoard .Rook (some (.File .A)) pA2).length = 2 ∧
      fromSanMove rookBoard (.Piece .Rook false (some (.File .A)) pA2) ≠ none := by
  refine ⟨by decide, by decide⟩

/-- C4 amended: for a SAN piece-move whose origin disambiguator is a file,
a rank, or absent, `from_san_move` fails iff the origin-candidate set is
empty; when one or more candidates survive it silently returns the move
built from the FIRST candidate in board order (so with two or more
survivors it does not fail). -/
theorem c4_first_candidate (b : BoardState) (kind : PieceType) (cap : Bool) (dst : Pos)
    (fromTag : Option FromPos)
    (hsq : ∀ pos, fromTag ≠ some (FromPos.Square pos))
    (hwf : ∀ qp ∈ pieces b, qp.1.kind = kind → qp.1.color = b.turn →
      legalMoves b qp.1 qp.2 ≠ none) :
    (fromSanMove b (.Piece kind cap fromTag dst) = none ↔
      sanCandidates b kind fromTag dst = []) ∧
    ∀ qp rest, sanCandidates b kind fromTag dst = qp :: rest →
      fromSanMove b (.Piece kind cap fromTag dst) = some (Move.new qp.2 dst) := by
  have hbase : ∀ (restrictF : Piece × Pos → Bool),
      ∀ qp ∈ ((pieces b).filter fun qp =>
        qp.1.kind == kind && qp.1.color == b.turn).filter restrictF,
        legalMoves b qp.1 qp.2 ≠ none := by
    intro restrictF qp hqp
    rw [List.mem_filter] at hqp
    obtain ⟨hqp1, _⟩ := hqp
    rw [List.mem_filter] at hqp1
    obtain ⟨hqmem, hcond⟩ := hqp1
    simp only [Bool.and_eq_true, beq_iff_eq] at hcond
    exact hwf qp hqmem hcond.1 hcond.2
  have shape : ∀ (L : List (Piece × Pos)) (res : Option Move),
      res = (do
        let found ← some ((L.head?).map fun qp => qp.2)
        let src ← found
        pure (Move.new src dst)) →
      ((res = none ↔ L = []) ∧
        ∀ qp rest, L = qp :: rest → res = some (Move.new qp.2 dst)) := by
    intro L res hres
    subst hres
    cases L with
    | nil => exact ⟨by simp, fun qp rest h => List.noConfusion h⟩
    | cons q rest =>
      refine ⟨by simp, ?_⟩
      intro qp2 rest2 h
      injection h with h1 h2
      subst h1
      rfl
  rcases fromTag with _ | pos | f | r
  · refine shape _ _ ?_
    simp only [fromSanMove, sanCandidates]
    rw [findFirstReaching_spec b dst _ (hbase _)]
  · exact absurd rfl (hsq pos)
  · refine shape _ _ ?_
    simp only [fromSanMove, sanCandidates]
    rw [findFirstReaching_spec b dst _ (hbase _)]
  · refine shape _ _ ?_
    simp only [fromSanMove, sanCandidates]
    rw [findFirstReaching_spec b dst _ (hbase _)]

/-- Witness for C4: on `rookBoard` the SAN move "Ra2" resolves to the rook
on a3 — the first of its two surviving candidates in board order. -/
theorem c4_first_candidate_witness :
    fromSanMove rookBoard (.Piece .Rook false (some (.File .A)) pA2) =
      some (Move.new pA3 pA2) :=
  (c4_first_candidate rookBoard .Rook false pA2 (some (.File .A))
    (fun pos h => FromPos.noConfusion (Option.some.inj h))
    (by decide)).2 (⟨.White, .Rook⟩, pA3) [(⟨.White, .Rook⟩, pA1)] (by decide)

/-- Counterexample to C1: on `rookBoard` the move Ra1-a2 is legal, but its
SAN form disambiguates only by file (a), and converting back resolves to
the rook on a3 — the round trip does not return the original move. -/
theorem c1_roundtrip_counterexample :
    Move.new pA1 pA2 ∈ (legalMoves rookBoard ⟨.White, .Rook⟩ pA1).getD [] ∧
      (toSanMove rookBoard (Move.new pA1 pA2)).bind (fromSanMove rookBoard) ≠
        some (Move.new pA1 pA2) := by
  refine ⟨by decide, by decide⟩

set_option maxRecDepth 100000 in
/-- C1 amended: in the starting position, every legal move of the side to
move survives the SAN round trip: `from_san (to_san m) = m`. -/
theorem c1_roundtrip_starting :
    ∀ qp ∈ pieces startingBoard, qp.1.color = startingBoard.turn →
      ∀ m ∈ (legalMoves startingBoard qp.1 qp.2).getD [],
        (toSanMove startingBoard m).bind (fromSanMove startingBoard) = some m := by
  decide

theorem toPos_up (pos : Pos) (k : Nat)
    (hr : 1 ≤ pos.rank.get + k ∧ pos.rank.get + k ≤ 8) :
    ((UnboundedPos.fromPos pos).up k).toPos = some ⟨pos.file, ⟨pos.rank.get + k, hr⟩⟩ := by
  have hf : 1 ≤ pos.file.asU8 ∧ pos.file.asU8 ≤ 8 := by cases pos.file <;> decide
  have htf : File.tryFromU8 pos.file.asU8 = some pos.file := by cases pos.file <;> rfl
  unfold UnboundedPos.toPos UnboundedPos.up UnboundedPos.fromPos
  simp only []
  rw [if_neg (by simp; omega)]
  have h1 : ((pos.file.asU8 : Int)).toNat = pos.file.asU8 := by omega
  have h2 : ((pos.rank.get : Int) + (k : Int)).toNat = pos.rank.get + k := by omega
  rw [h1, h2, htf]
  unfold Rank.tryNew
  rw [dif_pos hr]

theorem toPos_up_none (pos : Pos) (k : Nat) (h : 8 < pos.rank.get + k) :
    ((UnboundedPos.fromPos pos).up k).toPos = none := by
  have hf : 1 ≤ pos.file.asU8 ∧ pos.file.asU8 ≤ 8 := by cases pos.file <;> decide
  unfold UnboundedPos.toPos UnboundedPos.up UnboundedPos.fromPos
  simp only []
  rw [if_neg (by simp; omega)]
  have h2 : ((pos.rank.get : Int) + (k : Int)).toNat = pos.rank.get + k := by omega
  rw [h2]
  unfold Rank.tryNew
  rw [dif_neg (by omega)]
  cases File.tryFromU8 ((pos.file.asU8 : Int)).toNat <;> rfl

theorem toPos_down (pos : Pos) (k : Nat) (hk : k < pos.rank.get) :
    ((UnboundedPos.fromPos pos).down k).toPos =
      some ⟨pos.file, ⟨pos.rank.get - k,
        ⟨by omega, by have := pos.rank.2.2; unfold Rank.get; omega⟩⟩⟩ := by
  have hf : 1 ≤ pos.file.asU8 ∧ pos.file.asU8 ≤ 8 := by cases pos.file <;> decide
  have htf : File.tryFromU8 pos.file.asU8 = some pos.file := by cases pos.file <;> rfl
  have hr8 : pos.rank.get ≤ 8 := pos.rank.2.2
  unfold UnboundedPos.toPos UnboundedPos.down UnboundedPos.fromPos
  simp only []
  rw [if_neg (by simp; omega)]
  have h1 : ((pos.file.asU8 : Int)).toNat = pos.file.asU8 := by omega
  have h2 : ((pos.rank.get : Int) - (k : Int)).toNat = pos.rank.get - k := by omega
  rw [h1, h2, htf]
  unfold Rank.tryNew
  rw [dif_pos ⟨by omega, by omega⟩]

theorem toPos_down_none (pos : Pos) (k : Nat) (h : pos.rank.get ≤ k) :
    ((UnboundedPos.fromPos pos).down k).toPos = none := by
  have hf : 1 ≤ pos.file.asU8 ∧ pos.file.asU8 ≤ 8 := by cases pos.file <;> decide
  unfold UnboundedPos.toPos UnboundedPos.down UnboundedPos.fromPos
  simp only []
  by_cases hneg : (pos.rank.get : Int) - (k : Int) < 0
  · rw [if_pos (by simp; omega)]
  · rw [if_neg (by simp; omega)]
    have h2 : ((pos.rank.get : Int) - (k : Int)).toNat = 0 := by omega
    rw [h2]
    unfold Rank.tryNew
    rw [dif_neg (by omega)]
    cases File.tryFromU8 ((pos.file.asU8 : Int)).toNat <;> rfl

/-- Witness for C1: the knight move b1-a3 in the starting position
round-trips through SAN. -/
theorem c1_roundtrip_starting_witness :
    (toSanMove startingBoard (Move.new pB1 pA3)).bind (fromSanMove startingBoard) =
      some (Move.new pB1 pA3) :=
  c1_roundtrip_starting (⟨.White, .Knight⟩, pB1) (by decide) (by decide)
    (Move.new pB1 pA3) (by decide)

/-- C7: `available_moves` for a pawn yields exactly the one-step push when
unoccupied, the two-step push only from the home rank with an unoccupied
first step (and unoccupied target), and the diagonal captures onto
opposing-color squares, with every destination on the opponent's back rank
split into the four promotion moves; in particular a White pawn on g7 with
g8, h8, f8 empty yields exactly 4 moves, all promotions. -/
theorem c7_pawn_moves :
    (∀ (b : BoardState) (c : PieceColor) (pos : Pos) (m : Move),
      m ∈ availableMoves b ⟨c, .Pawn⟩ pos ↔ pawnMoveSpec b c pos m) ∧
    availableMoves promoBoard ⟨.White, .Pawn⟩ pG7 =
      [Move.newWithPromoted pG7 pG8 (some .Queen),
       Move.newWithPromoted pG7 pG8 (some .Bishop),
       Move.newWithPromoted pG7 pG8 (some .Rook),
       Move.newWithPromoted pG7 pG8 (some .Knight)] := by
  refine ⟨?_, rfl⟩

  intro b c pos m
  have hexp : ∀ dst : Pos,
      (m ∈ (if dst.rank == c.not.kingRank then
          [Move.newWithPromoted pos dst (some .Queen),
           Move.newWithPromoted pos dst (some .Bishop),
           Move.newWithPromoted pos dst (some .Rook),
           Move.newWithPromoted pos dst (some .Knight)]
        else [Move.new pos dst])) ↔
      (if dst.rank = c.not.kingRank then
        m = Move.newWithPromoted pos dst (some .Queen) ∨
        m = Move.newWithPromoted pos dst (some .Rook) ∨
        m = Move.newWithPromoted pos dst (some .Bishop) ∨
        m = Move.newWithPromoted pos dst (some .Knight)
      else m = Move.new pos dst) := by
    intro dst
    by_cases hbr : dst.rank = c.not.kingRank
    · rw [if_pos hbr, if_pos (by rw [beq_iff_eq]; exact hbr)]
      simp only [List.mem_cons, List.not_mem_nil, or_false]
      tauto
    · rw [if_neg hbr, if_neg (by rw [beq_iff_eq]; exact hbr)]
      simp
  cases c
  case White =>
    simp +decide only [availableMoves, if_true]
    unfold pawnMoveSpec
    rw [List.mem_flatMap]
    refine exists_congr fun dst => and_congr ?_ (hexp dst)
    rw [List.mem_append]
    unfold pawnDestSpec
    have hD : (dst ∈ ([DiagonalDirection.UpLeft, DiagonalDirection.UpRight].flatMap fun dir =>
        List.filter (fun p => isSquareOccupiedByColor b p PieceColor.White.not)
          (List.filterMap UnboundedPos.toPos (UnboundedPos.diagonal pos 1 dir)))) ↔
        (some dst ∈ pawnDiagSpec .White pos ∧
          isSquareOccupiedByColor b dst PieceColor.White.not = true) := by
      simp [pawnDiagSpec, UnboundedPos.diagonal]
      constructor
      · rintro (⟨h, ho⟩ | ⟨h, ho⟩)
        · exact ⟨Or.inl h.symm, ho⟩
        · exact ⟨Or.inr h.symm, ho⟩
      · rintro ⟨h | h, ho⟩
        · exact Or.inl ⟨h.symm, ho⟩
        · exact Or.inr ⟨h.symm, ho⟩
    have hF : (dst ∈ List.takeWhile (fun p => !isSquareOccupied b p)
        (List.filterMap UnboundedPos.toPos
          (UnboundedPos.vertical pos (if (pos.rank.get == 2) = true then 2 else 1) .Up))) ↔
        ((pawnStepSpec .White pos 1 = some dst ∧ isSquareOccupied b dst = false) ∨
         (pawnHomeRankSpec .White pos ∧
          (∃ mid, pawnStepSpec .White pos 1 = some mid ∧ isSquareOccupied b mid = false) ∧
          pawnStepSpec .White pos 2 = some dst ∧ isSquareOccupied b dst = false)) := by
      by_cases hfm : pos.rank.get = 2
      · obtain ⟨t1, ht1⟩ : ∃ t, ((UnboundedPos.fromPos pos).up 1).toPos = some t :=
          ⟨_, toPos_up pos 1 ⟨by omega, by omega⟩⟩
        obtain ⟨t2, ht2⟩ : ∃ t, ((UnboundedPos.fromPos pos).up 2).toPos = some t :=
          ⟨_, toPos_up pos 2 ⟨by omega, by omega⟩⟩
        have hcond : (pos.rank.get == 2) = true := by simp [hfm]
        by_cases ho1 : isSquareOccupied b t1
        · simp [hcond, UnboundedPos.vertical, pawnStepSpec, pawnHomeRankSpec,
            ht1, ht2, ho1, hfm, List.range_succ, Function.comp]
          rintro rfl
          exact ho1
        · by_cases ho2 : isSquareOccupied b t2
          · simp [hcond, UnboundedPos.vertical, pawnStepSpec, pawnHomeRankSpec,
              ht1, ht2, ho1, ho2, hfm, List.range_succ, Function.comp]
            constructor
            · rintro rfl
              exact Or.inl ⟨rfl, by simpa using ho1⟩
            · rintro (⟨rfl, h2⟩ | ⟨rfl, h2⟩)
              · rfl
              · rw [ho2] at h2
                exact Bool.noConfusion h2
          · simp [hcond, UnboundedPos.vertical, pawnStepSpec, pawnHomeRankSpec,
              ht1, ht2, ho1, ho2, hfm, List.range_succ, Function.comp]
            constructor
            · rintro (rfl | rfl)
              · exact Or.inl ⟨rfl, by simpa using ho1⟩
              · exact Or.inr ⟨rfl, by simpa using ho2⟩
            · rintro (⟨rfl, _⟩ | ⟨rfl, _⟩)
              · exact Or.inl rfl
              · exact Or.inr rfl
      · have hcond : (pos.rank.get == 2) = false := by simp [hfm]
        by_cases h8 : pos.rank.get + 1 ≤ 8
        · obtain ⟨t1, ht1⟩ : ∃ t, ((UnboundedPos.fromPos pos).up 1).toPos = some t :=
            ⟨_, toPos_up pos 1 ⟨by omega, h8⟩⟩
          by_cases ho1 : isSquareOccupied b t1
          · simp [hcond, UnboundedPos.vertical, pawnStepSpec, pawnHomeRankSpec,
              ht1, ho1, hfm, List.range_succ, Function.comp]
            rintro rfl
            exact ho1
          · simp [hcond, UnboundedPos.vertical, pawnStepSpec, pawnHomeRankSpec,
              ht1, ho1, hfm, List.range_succ, Function.comp]
            constructor
            · rintro rfl
              exact ⟨rfl, by simpa using ho1⟩
            · rintro ⟨rfl, _⟩
              rfl
        · have ht1 : ((UnboundedPos.fromPos pos).up 1).toPos = none :=
            toPos_up_none pos 1 (by omega)
          simp [hcond, UnboundedPos.vertical, pawnStepSpec, pawnHomeRankSpec,
            ht1, hfm, List.range_succ, Function.comp]
    rw [hF, hD, or_assoc]
  case Black =>
    simp +decide only [availableMoves, if_false, Bool.false_eq_true]
    unfold pawnMoveSpec
    rw [List.mem_flatMap]
    refine exists_congr fun dst => and_congr ?_ (hexp dst)
    rw [List.mem_append]
    unfold pawnDestSpec
    have hD : (dst ∈ ([DiagonalDirection.DownLeft, DiagonalDirection.DownRight].flatMap fun dir =>
        List.filter (fun p => isSquareOccupiedByColor b p PieceColor.Black.not)
          (List.filterMap UnboundedPos.toPos (UnboundedPos.diagonal pos 1 dir)))) ↔
        (some dst ∈ pawnDiagSpec .Black pos ∧
          isSquareOccupiedByColor b dst PieceColor.Black.not = true) := by
      simp [pawnDiagSpec, UnboundedPos.diagonal]
      constructor
      · rintro (⟨h, ho⟩ | ⟨h, ho⟩)
        · exact ⟨Or.inl h.symm, ho⟩
        · exact ⟨Or.inr h.symm, ho⟩
      · rintro ⟨h | h, ho⟩
        · exact Or.inl ⟨h.symm, ho⟩
        · exact Or.inr ⟨h.symm, ho⟩
    have hF : (dst ∈ List.takeWhile (fun p => !isSquareOccupied b p)
        (List.filterMap UnboundedPos.toPos
          (UnboundedPos.vertical pos (if (pos.rank.get == 7) = true then 2 else 1) .Down))) ↔
        ((pawnStepSpec .Black pos 1 = some dst ∧ isSquareOccupied b dst = false) ∨
         (pawnHomeRankSpec .Black pos ∧
          (∃ mid, pawnStepSpec .Black pos 1 = some mid ∧ isSquareOccupied b mid = false) ∧
          pawnStepSpec .Black pos 2 = some dst ∧ isSquareOccupied b dst = false)) := by
      by_cases hfm : pos.rank.get = 7
      · obtain ⟨t1, ht1⟩ : ∃ t, ((UnboundedPos.fromPos pos).down 1).toPos = some t :=
          ⟨_, toPos_down pos 1 (by omega)⟩
        obtain ⟨t2, ht2⟩ : ∃ t, ((UnboundedPos.fromPos pos).down 2).toPos = some t :=
          ⟨_, toPos_down pos 2 (by omega)⟩
        have hcond : (pos.rank.get == 7) = true := by simp [hfm]
        by_cases ho1 : isSquareOccupied b t1
        · simp [hcond, UnboundedPos.vertical, pawnStepSpec, pawnHomeRankSpec,
            ht1, ht2, ho1, hfm, List.range_succ, Function.comp]
          rintro rfl
          exact ho1
        · by_cases ho2 : isSquareOccupied b t2
          · simp [hcond, UnboundedPos.vertical, pawnStepSpec, pawnHomeRankSpec,
              ht1, ht2, ho1, ho2, hfm, List.range_succ, Function.comp]
            constructor
            · rintro rfl
              exact Or.inl ⟨rfl, by simpa using ho1⟩
            · rintro (⟨rfl, _⟩ | ⟨rfl, h2⟩)
              · rfl
              · rw [ho2] at h2
                exact Bool.noConfusion h2
          · simp [hcond, UnboundedPos.vertical, pawnStepSpec, pawnHomeRankSpec,
              ht1, ht2, ho1, ho2, hfm, List.range_succ, Function.comp]
            constructor
            · rintro (rfl | rfl)
              · exact Or.inl ⟨rfl, by simpa using ho1⟩
              · exact Or.inr ⟨rfl, by simpa using ho2⟩
            · rintro (⟨rfl, _⟩ | ⟨rfl, _⟩)
              · exact Or.inl rfl
              · exact Or.inr rfl
      · have hcond : (pos.rank.get == 7) = false := by simp [hfm]
        by_cases h1r : 1 < pos.rank.get
        · obtain ⟨t1, ht1⟩ : ∃ t, ((UnboundedPos.fromPos pos).down 1).toPos = some t :=
            ⟨_, toPos_down pos 1 h1r⟩
          by_cases ho1 : isSquareOccupied b t1
          · simp [hcond, UnboundedPos.vertical, pawnStepSpec, pawnHomeRankSpec,
              ht1, ho1, hfm, List.range_succ, Function.comp]
            rintro rfl
            exact ho1
          · simp [hcond, UnboundedPos.vertical, pawnStepSpec, pawnHomeRankSpec,
              ht1, ho1, hfm, List.range_succ, Function.comp]
            constructor
            · rintro rfl
              exact ⟨rfl, by simpa using ho1⟩
            · rintro ⟨rfl, _⟩
              rfl
        · have ht1 : ((UnboundedPos.fromPos pos).down 1).toPos = none :=
            toPos_down_none pos 1 (by omega)
          simp [hcond, UnboundedPos.vertical, pawnStepSpec, pawnHomeRankSpec,
            ht1, hfm, List.range_succ, Function.comp]
    rw [hF, hD, or_assoc]

end Chess
